import Mathlib

/-!
Verification development for the `my_http_server` repository.

The Python sources are shallowly embedded: pure functions become Lean
functions, the stateful round-robin counter becomes explicit state passing,
socket effects become an explicit environment value, and code that raises
exceptions returns `Option` or `Except`.  Byte strings are modelled as Lean
`String` (the requests in question are ASCII), and Python string operations
(`split`, slicing, `startswith`) are re-implemented below with Python
semantics at the `List Char` level so that every definition is executable.
-/

/-- Python `s.split(sep)` for a two-character separator `[x, y]`:
splits on non-overlapping occurrences left to right, keeping empty pieces.
Mirrors the `'\r\n'` and `': '` splits in `src/handlers.py`. -/
def pySplit2 (x y : Char) : List Char → List (List Char)
  | [] => [[]]
  | [c] => [[c]]
  | c :: d :: rest =>
    if c = x ∧ d = y then
      [] :: pySplit2 x y rest
    else
      match pySplit2 x y (d :: rest) with
      | [] => [[c]]
      | h :: t => (c :: h) :: t

/-- Split a character list at every character satisfying `p`, keeping empty
pieces (the separator characters are dropped). -/
def splitIf (p : Char → Bool) : List Char → List (List Char)
  | [] => [[]]
  | c :: rest =>
    if p c then
      [] :: splitIf p rest
    else
      match splitIf p rest with
      | [] => [[c]]
      | h :: t => (c :: h) :: t

/-- Python `s.split(sep)` on strings, for a two-character separator. -/
def pySplitS (x y : Char) (s : String) : List String :=
  (pySplit2 x y s.data).map (fun l => (⟨l⟩ : String))

/-- Python `s.split()` (no arguments): split on whitespace runs and drop the
empty pieces. -/
def pyWsTokens (s : String) : List String :=
  ((splitIf Char.isWhitespace s.data).filter (fun l => l ≠ [])).map (fun l => (⟨l⟩ : String))

/-- Python slice `l[1:-2]`. -/
def pySlice1m2 (l : List α) : List α :=
  (l.take (l.length - 2)).drop 1

/-- Python `s.startswith(p)`. -/
def pyStartsWith (s pre : String) : Bool :=
  pre.data.isPrefixOf s.data

/-- Python `s[n:]` (`n` counted in characters). -/
def pyDropChars (s : String) (n : ℕ) : String :=
  ⟨s.data.drop n⟩

/-- Python `len(s)` for a `str`. -/
def pyLen (s : String) : ℕ :=
  s.data.length

/-- One insertion into a Python `dict`: an existing key keeps its position but
its value is overwritten, a new key is appended. -/
def dictInsert (m : List (String × String)) (k v : String) : List (String × String) :=
  if m.any (fun p => p.1 = k) then
    m.map (fun p => if p.1 = k then (k, v) else p)
  else
    m ++ [(k, v)]

/-- The Python `dict` built from an association list in order (as by the
header dict comprehension in `src/handlers.py`): duplicate keys collapse to
the last-seen value. -/
def dictOfPairs (ps : List (String × String)) : List (String × String) :=
  ps.foldl (fun m p => dictInsert m p.1 p.2) []

/-- The request record produced by parsing (`utils.HttpRequest`): `method`,
`requested_url`, `headers`, `payload`. -/
structure HttpRequest where
  method : String
  requested_url : String
  headers : List (String × String)
  payload : String
deriving DecidableEq

/-- The first line of the raw request, i.e. `http_request_lines[0]` in
`HttpBaseHandler.parse_http_request` (`src/handlers.py`). -/
def firstLine (raw : String) : String :=
  (pySplitS '\r' '\n' raw).headD ""

/-- `http_request_lines[1:-2]` in `HttpBaseHandler.parse_http_request`
(`src/handlers.py`): the lines treated as header lines. -/
def headerLines (raw : String) : List String :=
  pySlice1m2 (pySplitS '\r' '\n' raw)

/-- `header.split(': ')[0]` and `header.split(': ')[1]` in
`HttpBaseHandler.parse_http_request` (`src/handlers.py`): the key/value pair
extracted from one header line.  Missing pieces are `""`; `parse_http_request`
only uses this when the split has at least two pieces (otherwise Python
raises `IndexError` and parsing fails). -/
def headerPair (h : String) : String × String :=
  let parts := pySplitS ':' ' ' h
  (parts.headD "", (parts.drop 1).headD "")

/-- `HttpBaseHandler.parse_http_request` (`src/handlers.py`):

    http_request_lines = raw_http_request.decode().split('\r\n')
    method,requested_url = http_request_lines[0].split()[:2]
    headers = {header.split(': ')[0]:header.split(': ')[1]
               for header in http_request_lines[1:-2]}
    payload = http_request_lines[-1]

Python raises (`ValueError` from the unpacking if the first line has fewer
than two whitespace tokens, `IndexError` from `[1]` if a header line has no
`': '`); both are modelled as `none`. -/
def parse_http_request (raw : String) : Option HttpRequest :=
  match pyWsTokens (firstLine raw) with
  | m :: u :: _ =>
    if (headerLines raw).all (fun h => 2 ≤ (pySplitS ':' ' ' h).length) then
      some { method := m
             requested_url := u
             headers := dictOfPairs ((headerLines raw).map headerPair)
             payload := (pySplitS '\r' '\n' raw).getLastD "" }
    else
      none
  | _ => none

/-- `HttpBaseHandler.create_http_response` (`src/handlers.py`):

    length = len(raw_body) if raw_body else 0
    headers = (f'HTTP/1.1 200 OK\n'
            f'Content-Type: text/html; charset=UTF-8\n'
            f'Content-Length: {length}\n\n').encode()
    http_response = headers + raw_body if raw_body else headers
-/
def create_http_response (raw_body : String) : String :=
  let length := if raw_body = "" then 0 else pyLen raw_body
  let headers := "HTTP/1.1 200 OK\n" ++ "Content-Type: text/html; charset=UTF-8\n"
      ++ "Content-Length: " ++ toString length ++ "\n\n"
  if raw_body = "" then headers else headers ++ raw_body

/-- Modelled from the spec: the `HttpResponse` record of
`utils/general_utils.py`, which is not under `src/`.  Per spec section 3:
`status` (default 200), `headers` (mapping), `body`.  The `reason` phrase is
derived from the status at serialization time and is not modelled. -/
structure HttpResponse where
  status : ℕ := 200
  headers : List (String × String) := []
  body : String := ""
deriving DecidableEq

/-- The 400 response built in `BaseServer.on_received_data`
(`src/server/base_server.py`) when no handler matches. -/
def noHandlerResponse : HttpResponse :=
  { status := 400
    body := "No handler could handle your request, check the matching criteria in settings.py" }

/-- A handler as seen by the dispatch loop of `BaseServer.on_received_data`:
a `should_handle` predicate on the parsed request and a `handle_request` that
consumes the raw request bytes stored on the handler
(`handler.raw_http_request = raw_data`). -/
structure SHandler where
  should_handle : HttpRequest → Bool
  handle_request : String → HttpResponse

/-- The `for handler in self.request_handlers: ... break / else: 400` loop of
`BaseServer.on_received_data` (`src/server/base_server.py`).  Besides the
response it returns the index of the handler whose `handle_request` was
invoked (`none` when the `else` branch produced the 400 response), so that
the theorems can speak about which handler ran. -/
def dispatchLoop (req : HttpRequest) (raw : String) : List SHandler → HttpResponse × Option ℕ
  | [] => (noHandlerResponse, none)
  | h :: rest =>
    if h.should_handle req then
      (h.handle_request raw, some 0)
    else
      let r := dispatchLoop req raw rest
      (r.1, r.2.map (· + 1))

/-- `BaseServer.on_received_data` (`src/server/base_server.py`): parse the
raw bytes, then probe the handlers in order.  A parse failure raises in
Python (`none` here); otherwise the dispatch loop runs. -/
def on_received_data (handlers : List SHandler) (raw : String) : Option (HttpResponse × Option ℕ) :=
  (parse_http_request raw).map (fun req => dispatchLoop req raw handlers)

/-- Modelled from the spec: `HttpRequest.__getitem__` lives in
`utils/general_utils.py`, which is not under `src/`.  Per spec section 3
(MatchCriteria), the attribute names recognized are `url`, `method`, plus any
header name. -/
def getAttr (req : HttpRequest) (attr : String) : String :=
  if attr = "url" then req.requested_url
  else if attr = "method" then req.method
  else ((req.headers.lookup attr).getD "")

/-- `HttpBaseHandler.should_handle` (`src/handlers/http_handlers.py`): walk
the criteria entries; for `url` the request url must start with one of the
required values (`str.startswith` on a tuple, so an empty tuple never
matches); for every other attribute the actual value must be a member of the
required values; return `False` on the first unsatisfied entry. -/
def should_handle (criteria : List (String × List String)) (req : HttpRequest) : Bool :=
  criteria.all fun entry =>
    let actual := getAttr req entry.1
    if entry.1 = "url" then
      entry.2.any (fun pre => pyStartsWith actual pre)
    else
      entry.2.contains actual

/-- A path as compared by `pathlib.Path`: the list of components, with
spurious empty components and single dots collapsed (what `pathlib` calls
normalization; `..` components are kept). -/
def strToPath (s : String) : List String :=
  ((splitIf (fun c => c = '/') s.data).map (fun l => (⟨l⟩ : String))).filter
    (fun c => c != "" && c != ".")

/-- The filesystem as the static handler can observe it: the set of entry
paths that exist, and the contents behind each path (`open(p,'rb').read()`). -/
structure Filesystem where
  paths : List (List String)
  contents : List String → String

/-- A real filesystem enumeration contains no empty, dot or dot-dot
components: those never appear in paths produced by `pathlib.Path.glob`. -/
def WellFormedFS (fs : Filesystem) : Prop :=
  ∀ p ∈ fs.paths, "" ∉ p ∧ "." ∉ p ∧ ".." ∉ p

/-- `pathlib.Path(root).glob('**/*')` in `StaticAssetHandler.__init__`
(`src/handlers/http_handlers.py`): every filesystem entry strictly below the
static root. -/
def globAll (fs : Filesystem) (root : List String) : List (List String) :=
  fs.paths.filter (fun p => root.isPrefixOf p && p != root)

/-- POSIX resolution of the `..` components of a path (what the candidate
path would actually point at on disk). -/
def resolvePath (p : List String) : List String :=
  p.foldl (fun acc c => if c = ".." then acc.dropLast else acc ++ [c]) []

/-- `StaticAssetHandler` state after `__init__`
(`src/handlers/http_handlers.py`): the `url` match criteria, the
`staticRoot` context string and the pre-enumerated file set. -/
structure StaticAssetHandler where
  criteria_url : List String
  static_directory_path : String
  all_files : List (List String)

/-- `StaticAssetHandler.__init__` (`src/handlers/http_handlers.py`): record
the static root and enumerate `all_files` once. -/
def StaticAssetHandler.init (criteria_url : List String) (staticRoot : String)
    (fs : Filesystem) : StaticAssetHandler :=
  ⟨criteria_url, staticRoot, globAll fs (strToPath staticRoot)⟩

/-- `StaticAssetHandler.remove_url_prefix`
(`src/handlers/http_handlers.py`): strip the first matching required
beginning from the request url; Python raises when none matches (`none`
here). -/
def removeUrlPre (h : StaticAssetHandler) (req : HttpRequest) : Option String :=
  (h.criteria_url.find? (fun pre => pyStartsWith req.requested_url pre)).map
    (fun pre => pyDropChars req.requested_url (pyLen pre))

/-- The fixed extension-to-MIME table of `StaticAssetHandler.__init__`
(`src/handlers/http_handlers.py`). -/
def file_extension_mime_type : List (String × String) :=
  [(".jpg", "image/jpeg"), (".jpeg", "image/jpeg"), (".jfif", "image/jpeg"),
   (".pjpeg", "image/jpeg"), (".pjp", "image/jpeg"), (".png", "image/png"),
   (".css", "text/css"), (".html", "text/html"), (".js", "text/javascript"),
   (".mp4", "video/mp4"), (".flv", "video/x-flv"), (".m3u8", "application/x-mpegURL"),
   (".ts", "video/MP2T"), (".3gp", "video/3gpp"), (".mov", "video/quicktime"),
   (".avi", "video/x-msvideo"), (".wmv", "video/x-ms-wmv")]

/-- `'.' + http_request.requested_url.split('.')[-1]` in
`StaticAssetHandler.handle_request` (`src/handlers/http_handlers.py`). -/
def fileExtensionOf (url : String) : String :=
  "." ++ (((splitIf (fun c => c = '.') url.data).map (fun l => (⟨l⟩ : String))).getLastD "")

/-- `StaticAssetHandler.not_found_error_response`
(`src/handlers/http_handlers.py`). -/
def not_found_error_response (absolute_path : String) : String :=
  "<pre> the file requested was searched for in " ++ absolute_path
    ++ " and it does not exist.\n"
    ++ "A proper request for a static resource is any of the strings the request should start with (as defined\n"
    ++ "in your settings.json file) + the relative path to your resource starting from the static_root (defined in\n"
    ++ "settings.py). </pre>"

/-- `StaticAssetHandler.handle_request` (`src/handlers/http_handlers.py`):
compute the absolute path, test membership in `all_files`, read and serve
with the looked-up MIME type on a hit, 404 otherwise.  The second component
of the result is the list of paths actually opened and read, so the theorems
can speak about filesystem access; `none` models the exception raised by
`remove_url_prefix` when no criteria prefix matches. -/
def StaticAssetHandler.handle_request (h : StaticAssetHandler) (fs : Filesystem)
    (req : HttpRequest) : Option (HttpResponse × List (List String)) :=
  (removeUrlPre h req).map fun stripped =>
    let absolute_path := h.static_directory_path ++ stripped
    let content_type := ((file_extension_mime_type.lookup
        (fileExtensionOf req.requested_url)).getD "text/html")
    if strToPath absolute_path ∈ h.all_files then
      ({ status := 200, headers := [("Content-Type", content_type)],
         body := fs.contents (strToPath absolute_path) }, [strToPath absolute_path])
    else
      ({ status := 404, body := not_found_error_response absolute_path }, [])

/-- The exceptions that can escape `ReverseProxyHandler.connect_and_send`
(`src/handlers/http_handlers.py`): `ConnectionRefusedError` from `connect`,
`socket.timeout` from the 15-second `settimeout` deadline, and the error
raised by `HttpResponse.from_bytes` on an upstream reply it cannot parse. -/
inductive PyError where
  | connectionRefused
  | socketTimeout
  | malformedResponse
deriving DecidableEq

/-- What the upstream socket does when the proxy talks to it: refuse the
connection, let the 15-second deadline expire, or reply with bytes. -/
inductive UpstreamBehavior where
  | refused
  | timedOut
  | replies (data : String)
deriving DecidableEq

/-- Modelled from the spec: `HttpResponse.from_bytes` lives in
`utils/general_utils.py`, which is not under `src/`.  Per spec sections 3
and 4.1, the reply bytes are split on CRLF, the status line must read
`HTTP/1.1 <status> <reason>` with a numeric status, the header lines up to
the blank line are `Name: Value` pairs, the rest is the body; anything else
is a malformed reply and fails. -/
def responseFromBytes (data : String) : Option HttpResponse :=
  match pySplitS '\r' '\n' data with
  | statusLine :: rest =>
    match pyWsTokens statusLine with
    | version :: code :: _ =>
      if version = "HTTP/1.1" then
        (code.toNat?).bind fun status =>
          let headerPart := rest.takeWhile (fun l => l ≠ "")
          let bodyPart := (rest.dropWhile (fun l => l ≠ "")).drop 1
          if headerPart.all (fun h => 2 ≤ (pySplitS ':' ' ' h).length) then
            some { status := status
                   headers := dictOfPairs (headerPart.map headerPair)
                   body := String.intercalate "\r\n" bodyPart }
          else
            none
      else
        none
    | _ => none
  | [] => none

/-- `ReverseProxyHandler.connect_and_send` (`src/handlers/http_handlers.py`):

    with socket.socket(...) as remote_server:
        remote_server.settimeout(15)
        remote_server.connect((remote_host,int(remote_port)))
        remote_server.sendall(http_request.raw_http_request)
        data = remote_server.recv(1024)
        http_response = HttpResponse.from_bytes(data)
        return http_response

There is no `try`/`except` in this method or around its callers, so every
socket or parse error escapes; `Except.error` models the escaping
exception. -/
def connect_and_send (upstream : UpstreamBehavior) : Except PyError HttpResponse :=
  match upstream with
  | .refused => .error .connectionRefused
  | .timedOut => .error .socketTimeout
  | .replies data =>
    match responseFromBytes data with
    | some resp => .ok resp
    | none => .error .malformedResponse

/-- `ReverseProxyHandler.handle_request` (`src/handlers/http_handlers.py`):
just `connect_and_send` against the fixed upstream; the environment maps the
`(host, port)` pair to that upstream socket behaviour. -/
def proxyHandleRequest (send_to : String × ℕ) (net : String × ℕ → UpstreamBehavior) :
    Except PyError HttpResponse :=
  connect_and_send (net send_to)

/-- The half-open interval object stored in an upstream entry.  Modelled from
the spec: the `Range` class lives in `utils/general_utils.py`, which is not
under `src/`; per spec section 3 a `weight_range` is a half-open interval
`[lo, hi)` and the Python `in` test is interval membership. -/
structure WeightRange where
  lo : ℚ
  hi : ℚ
deriving DecidableEq

/-- `random_num in weight_range`: membership in the half-open interval. -/
def WeightRange.containsQ (r : WeightRange) (x : ℚ) : Bool :=
  decide (r.lo ≤ x ∧ x < r.hi)

/-- One `(host, port, weight_range)` entry of the `send_to` context of
`LoadBalancingHandler` (`src/handlers/http_handlers.py`). -/
structure UpstreamEntry where
  host : String
  port : ℕ
  range : WeightRange
deriving DecidableEq

/-- `LoadBalancingHandler.weighted_strategy`
(`src/handlers/http_handlers.py`), with the value of `random.random()`
passed in explicitly:

    for host, port, weight_range in self.remote_servers:
        if random_num in weight_range:
            return (host, port)
    raise Exception("random number generated was not in any range")
-/
def weighted_strategy (random_num : ℚ) : List UpstreamEntry → Except String (String × ℕ)
  | [] => .error "random number generated was not in any range"
  | e :: rest =>
    if e.range.containsQ random_num then
      .ok (e.host, e.port)
    else
      weighted_strategy random_num rest

/-- The invariant of spec section 3 on an upstream list, relative to the
lower bound the next range must start at: ranges are contiguous from `lo`
and end exactly at `1`. -/
def ContiguousFrom : ℚ → List UpstreamEntry → Prop
  | lo, [] => lo = 1
  | lo, e :: rest => e.range.lo = lo ∧ lo ≤ e.range.hi ∧ ContiguousFrom e.range.hi rest

/-- Spec section 3: the weight ranges are disjoint, contiguous half-open
intervals covering `[0, 1)` exactly. -/
def WeightInvariant (l : List UpstreamEntry) : Prop :=
  ContiguousFrom 0 l

/-- `LoadBalancingHandler.round_robin_strategy`
(`src/handlers/http_handlers.py`), with the `self.server_index` state passed
and returned explicitly:

    server_to_send_to = self.remote_servers[self.server_index % len(self.remote_servers)]
    self.server_index +=1
    return server_to_send_to

Indexing an empty list (a `ZeroDivisionError` in Python) is modelled by
`Option`. -/
def round_robin_strategy (remote_servers : List α) (server_index : ℕ) :
    Option α × ℕ :=
  (remote_servers[server_index % remote_servers.length]?, server_index + 1)

/-- Run `round_robin_strategy` `n` times from a starting counter, collecting
the picks in order (each server-loop iteration of the single-threaded server
makes exactly one pick). -/
def rrTrace (remote_servers : List α) (server_index : ℕ) : ℕ → List (Option α)
  | 0 => []
  | n + 1 =>
    let r := round_robin_strategy remote_servers server_index
    r.1 :: rrTrace remote_servers r.2 n

/-- `LoadBalancingHandler.handle_request` (`src/handlers/http_handlers.py`)
with the `weighted` strategy: pick the upstream, then `connect_and_send` to
it.  A strategy failure (the `UnreachableRange` exception) escapes. -/
def lbHandleRequestWeighted (random_num : ℚ) (remote_servers : List UpstreamEntry)
    (net : String × ℕ → UpstreamBehavior) : Except String (Except PyError HttpResponse) :=
  (weighted_strategy random_num remote_servers).map (fun pick => connect_and_send (net pick))

/-- Lookup in the Python-`dict` model: the value stored at `k`. -/
def dictGet (m : List (String × String)) (k : String) : Option String :=
  (m.find? (fun p => p.1 = k)).map (fun p => p.2)

/-- Whether a proxy call produced (rather than raised) a response with
status 502. -/
def returns502 (r : Except PyError HttpResponse) : Bool :=
  match r with
  | .ok resp => resp.status == 502
  | .error _ => false

/-- A concrete upstream list for the weighted strategy, with the ranges of
spec scenario S6: `A:[0,0.5) B:[0.5,0.8) C:[0.8,1.0)`. -/
def lbExample : List UpstreamEntry :=
  [⟨"A", 8001, ⟨0, 1/2⟩⟩, ⟨"B", 8002, ⟨1/2, 4/5⟩⟩, ⟨"C", 8003, ⟨4/5, 1⟩⟩]

/-- Claim C3: the claim states serialization produces CRLF-terminated lines,
never bare LF.  The code (`create_http_response` in `src/handlers.py`) emits
bare `\n` everywhere: evaluated at body `"hi"`, the serialized output is the
LF-delimited string shown and contains no CRLF (indeed no `\r` at all),
although the sibling `parse_http_request` of the same class splits on
`\r\n`.  This contradicts the codec and the HTTP/1.1 line-ending rule the
spec states, so the code is the bug. -/
theorem c3_serialize_uses_bare_lf :
    create_http_response "hi" =
      "HTTP/1.1 200 OK\nContent-Type: text/html; charset=UTF-8\nContent-Length: 2\n\nhi" ∧
    ¬ List.IsInfix ['\r', '\n'] (create_http_response "hi").data ∧
    (create_http_response "hi").data.contains '\r' = false := by
  set_option maxRecDepth 10000 in decide

/-- Claim C4: the claim states that parsing the serialization of a response
recovers its body and status.  Evaluated on the response with body `"hi"`:
because `create_http_response` emits bare `\n` while `parse_http_request`
splits on `\r\n`, the whole serialization is one line, so the parse yields a
record with method `HTTP/1.1`, url `200`, no headers, and a payload equal to
the entire serialized text, not to the body `"hi"`.  The round trip fails on
the code. -/
theorem c4_roundtrip_fails :
    parse_http_request (create_http_response "hi") =
      some { method := "HTTP/1.1", requested_url := "200", headers := [],
             payload := "HTTP/1.1 200 OK\nContent-Type: text/html; charset=UTF-8\nContent-Length: 2\n\nhi" } ∧
    ("HTTP/1.1 200 OK\nContent-Type: text/html; charset=UTF-8\nContent-Length: 2\n\nhi" : String) ≠ "hi" := by
  set_option maxRecDepth 10000 in decide

/-- Claim C10: a handler whose criteria map binds `url` to an empty list of
accepted values matches no request (`str.startswith` on an empty tuple is
false), while a criteria map with no entries at all matches every
request. -/
theorem c10_empty_url_list_matches_nothing (criteria : List (String × List String))
    (req : HttpRequest) (hmem : ("url", ([] : List String)) ∈ criteria) :
    should_handle criteria req = false ∧ should_handle [] req = true := by
  constructor
  · cases hsb : should_handle criteria req
    · rfl
    · unfold should_handle at hsb
      exact absurd (List.all_eq_true.mp hsb _ hmem) (by simp)
  · rfl

/-- Witness for C10 at a concrete criteria map and request. -/
theorem c10_witness :
    should_handle [("url", [])] { method := "GET", requested_url := "/x", headers := [], payload := "" } = false ∧
    should_handle [] { method := "GET", requested_url := "/x", headers := [], payload := "" } = true :=
  c10_empty_url_list_matches_nothing _ _ (by decide)

/-- Claim C5, counterexample: against an upstream that refuses the
connection, `ReverseProxyHandler.handle_request` does not return a response
with status 502 — the `ConnectionRefusedError` escapes (there is no
`try`/`except` in `connect_and_send` or around its callers). -/
theorem c5_counterexample :
    returns502 (proxyHandleRequest ("127.0.0.1", 8000) (fun _ => .refused)) = false ∧
    proxyHandleRequest ("127.0.0.1", 8000) (fun _ => .refused) = .error .connectionRefused :=
  ⟨rfl, rfl⟩

/-- Claim C5, amended: when the upstream connection is refused, the
15-second deadline expires, or the upstream reply is malformed,
`handle_request` of `ReverseProxyHandler` propagates the corresponding
exception instead of returning a 502 response; `LoadBalancingHandler` does
the same after upstream selection. -/
theorem c5_errors_propagate (net : String × ℕ → UpstreamBehavior) (send_to : String × ℕ) :
    (net send_to = .refused → proxyHandleRequest send_to net = .error .connectionRefused) ∧
    (net send_to = .timedOut → proxyHandleRequest send_to net = .error .socketTimeout) ∧
    (∀ d, net send_to = .replies d → responseFromBytes d = none →
      proxyHandleRequest send_to net = .error .malformedResponse) ∧
    (∀ q l pick, weighted_strategy q l = .ok pick → net pick = .refused →
      lbHandleRequestWeighted q l net = .ok (.error .connectionRefused)) := by
  refine ⟨?_, ?_, ?_, ?_⟩
  · intro h; simp [proxyHandleRequest, connect_and_send, h]
  · intro h; simp [proxyHandleRequest, connect_and_send, h]
  · intro d h hm; simp [proxyHandleRequest, connect_and_send, h, hm]
  · intro q l pick hs hn
    simp [lbHandleRequestWeighted, hs, Except.map, connect_and_send, hn]

/-- Witness for the amended C5 at a concrete upstream. -/
theorem c5_witness :
    proxyHandleRequest ("10.0.0.1", 9001) (fun _ => .refused) = .error .connectionRefused :=
  (c5_errors_propagate (fun _ => .refused) ("10.0.0.1", 9001)).1 rfl

/-- Helper: the dispatch loop invokes exactly the first handler whose
`should_handle` is true. -/
theorem dispatchLoop_first_match (req : HttpRequest) (raw : String) :
    ∀ (handlers : List SHandler) (i : ℕ) (hi : i < handlers.length),
      (handlers.get ⟨i, hi⟩).should_handle req = true →
      (∀ j (hj : j < i), (handlers.get ⟨j, Nat.lt_trans hj hi⟩).should_handle req = false) →
      dispatchLoop req raw handlers = ((handlers.get ⟨i, hi⟩).handle_request raw, some i)
  | [], i, hi, _, _ => absurd hi (Nat.not_lt_zero i)
  | h :: rest, 0, hi, hmatch, _ => by
      simp only [List.get] at hmatch ⊢
      simp [dispatchLoop, hmatch]
  | h :: rest, i + 1, hi, hmatch, hbefore => by
      have h0 : h.should_handle req = false := hbefore 0 (Nat.succ_pos i)
      have hrest := dispatchLoop_first_match req raw rest i (Nat.lt_of_succ_lt_succ hi)
        hmatch (fun j hj => hbefore (j + 1) (Nat.succ_lt_succ hj))
      simp [dispatchLoop, h0, hrest]

/-- Helper: when no handler matches, the loop falls through to the `else`
branch and no handler is invoked. -/
theorem dispatchLoop_no_match (req : HttpRequest) (raw : String) :
    ∀ (handlers : List SHandler),
      (∀ h ∈ handlers, h.should_handle req = false) →
      dispatchLoop req raw handlers = (noHandlerResponse, none)
  | [], _ => rfl
  | h :: rest, hall => by
      have h0 : h.should_handle req = false := hall h (List.mem_cons_self h rest)
      have hrest := dispatchLoop_no_match req raw rest (fun g hg => hall g (List.mem_cons_of_mem h hg))
      simp [dispatchLoop, h0, hrest]

/-- Claim C1: when the request parses, handlers are probed strictly in
settings order and only the first handler whose `should_handle` returns true
has its `handle_request` invoked (the invocation marker is its index, so no
later handler ran); when no handler matches, the response is the 400
response and no handler is invoked. -/
theorem c1_first_match_dispatch (handlers : List SHandler) (raw : String) (req : HttpRequest)
    (hparse : parse_http_request raw = some req) :
    (∀ i (hi : i < handlers.length),
      (handlers.get ⟨i, hi⟩).should_handle req = true →
      (∀ j (hj : j < i), (handlers.get ⟨j, Nat.lt_trans hj hi⟩).should_handle req = false) →
      on_received_data handlers raw = some ((handlers.get ⟨i, hi⟩).handle_request raw, some i)) ∧
    ((∀ h ∈ handlers, h.should_handle req = false) →
      on_received_data handlers raw = some (noHandlerResponse, none) ∧ noHandlerResponse.status = 400) := by
  constructor
  · intro i hi hmatch hbefore
    simp [on_received_data, hparse, dispatchLoop_first_match req raw handlers i hi hmatch hbefore]
  · intro hall
    exact ⟨by simp [on_received_data, hparse, dispatchLoop_no_match req raw handlers hall], rfl⟩

/-- Witness for C1: two handlers that would both match; only the first one
is invoked and its response is returned. -/
theorem c1_witness :
    on_received_data
      [⟨fun _ => true, fun _ => { status := 201 }⟩, ⟨fun _ => true, fun _ => { status := 202 }⟩]
      "GET / HTTP/1.1\r\n\r\n"
      = some ({ status := 201 }, some 0) :=
  (c1_first_match_dispatch
      [⟨fun _ => true, fun _ => { status := 201 }⟩, ⟨fun _ => true, fun _ => { status := 202 }⟩]
      "GET / HTTP/1.1\r\n\r\n"
      { method := "GET", requested_url := "/", headers := [], payload := "" }
      (by set_option maxRecDepth 10000 in decide)).1
    0 (by decide) rfl (fun j hj => absurd hj (Nat.not_lt_zero j))

/-- Helper: the round-robin trace from counter `c` is pointwise indexing at
`(c + t) mod N`. -/
theorem rrTrace_eq_map (servers : List α) :
    ∀ (n c : ℕ), rrTrace servers c n =
      (List.range n).map (fun t => servers[(c + t) % servers.length]?)
  | 0, c => rfl
  | n + 1, c => by
      have ih := rrTrace_eq_map servers n (c + 1)
      simp only [rrTrace, round_robin_strategy, ih, List.range_succ_eq_map, List.map_cons,
        List.map_map, Nat.add_zero]
      congr 1
      apply List.map_congr_left
      intro t _
      simp only [Function.comp]
      have h : c + Nat.succ t = c + 1 + t := by omega
      rw [h]

/-- Helper: wrapping a list in `some` preserves occurrence counts. -/
theorem count_map_some [DecidableEq α] (l : List α) (x : α) :
    (l.map some).count (some x) = l.count x := by
  induction l with
  | nil => rfl
  | cons a l ih => simp [List.count_cons, ih]

/-- Helper: one full period of round-robin picks, starting at a counter that
is a multiple of the list length, walks the server list exactly once in
order. -/
theorem rrBlock (servers : List α) (q : ℕ) :
    (List.range servers.length).map (fun t => servers[(q * servers.length + t) % servers.length]?) =
      servers.map some := by
  apply List.ext_getElem?
  intro i
  by_cases hi : i < servers.length
  · simp only [List.getElem?_map, List.getElem?_range hi, List.getElem?_eq_getElem hi,
      Option.map_some']
    congr 1
    rw [Nat.add_comm, Nat.add_mul_mod_self_right, Nat.mod_eq_of_lt hi,
      List.getElem?_eq_getElem hi]
  · have h1 : (List.range servers.length)[i]? = none := by
      rw [List.getElem?_eq_none_iff]; simpa using Nat.le_of_not_lt hi
    have h2 : servers[i]? = none := by
      rw [List.getElem?_eq_none_iff]; exact Nat.le_of_not_lt hi
    rw [List.getElem?_map, List.getElem?_map, h1, h2]
    rfl

/-- Claim C7: single-threaded round-robin from counter 0: the counter
increments by exactly one per pick, the t-th pick (0-based) is
`send_to[t mod N]`, and after `k * N` picks every upstream has been selected
exactly `k` times (`k` times its multiplicity in the list). -/
theorem c7_round_robin (servers : List α) [DecidableEq α] (hne : servers ≠ []) :
    (∀ i, (round_robin_strategy servers i).2 = i + 1) ∧
    (∀ n, rrTrace servers 0 n =
      (List.range n).map (fun t => servers[t % servers.length]?)) ∧
    (∀ k x, (rrTrace servers 0 (k * servers.length)).count (some x) = k * servers.count x) := by
  refine ⟨fun i => rfl, ?_, ?_⟩
  · intro n
    rw [rrTrace_eq_map]
    simp
  · intro k x
    induction k with
    | zero => simp [rrTrace]
    | succ k ih =>
        have hsplit : (k + 1) * servers.length = k * servers.length + servers.length := by ring
        rw [rrTrace_eq_map] at ih ⊢
        rw [hsplit, List.range_add, List.map_append, List.count_append, ih, List.map_map]
        have hblock : (List.range servers.length).map
            ((fun t => servers[(0 + t) % servers.length]?) ∘ (fun t => k * servers.length + t)) =
            servers.map some := by
          rw [← rrBlock servers k]
          apply List.map_congr_left
          intro t _
          simp only [Function.comp, Nat.zero_add]
        rw [hblock, count_map_some]
        ring

/-- Witness for C7: three upstreams, two full rounds; upstream `A` is
selected exactly twice. -/
theorem c7_witness :
    (rrTrace ["A", "B", "C"] 0 (2 * 3)).count (some "A") = 2 * (["A", "B", "C"].count "A") :=
  (c7_round_robin ["A", "B", "C"] (by decide)).2.2 2 "A"

/-- Helper: under the contiguity invariant every entry range starts at or
above the running lower bound. -/
theorem contiguousFrom_lo_ge :
    ∀ (l : List UpstreamEntry) (b : ℚ), ContiguousFrom b l →
      ∀ e ∈ l, b ≤ e.range.lo
  | e :: rest, b, hc, e2, hmem => by
      obtain ⟨hlo, hlh, hcr⟩ := hc
      rcases List.mem_cons.mp hmem with heq | hmem2
      · rw [heq, hlo]
      · calc b ≤ e.range.hi := hlo ▸ hlh
          _ ≤ e2.range.lo := contiguousFrom_lo_ge rest e.range.hi hcr e2 hmem2

/-- Helper: under the contiguity invariant, a draw at or above the running
bound and below 1 is contained in exactly one entry range, and the strategy
returns that entry. -/
theorem weighted_find :
    ∀ (l : List UpstreamEntry) (b r : ℚ), ContiguousFrom b l → b ≤ r → r < 1 →
      ∃ e ∈ l, e.range.containsQ r = true ∧
        weighted_strategy r l = .ok (e.host, e.port) ∧
        ∀ e2 ∈ l, e2.range.containsQ r = true → e2 = e
  | [], b, r, hc, hbr, hr1 => by
      exact absurd (lt_of_le_of_lt hbr hr1) (by rw [show b = 1 from hc]; exact lt_irrefl 1)
  | e :: rest, b, r, hc, hbr, hr1 => by
      obtain ⟨hlo, hlh, hcr⟩ := hc
      by_cases hcont : r < e.range.hi
      · have hce : e.range.containsQ r = true := by
          simp only [WeightRange.containsQ, decide_eq_true_eq]
          exact ⟨hlo ▸ hbr, hcont⟩
        refine ⟨e, List.mem_cons_self e rest, hce, ?_, ?_⟩
        · simp [weighted_strategy, hce]
        · intro e2 hmem hc2
          rcases List.mem_cons.mp hmem with heq | hmem2
          · exact heq
          · exfalso
            have hge : e.range.hi ≤ e2.range.lo :=
              contiguousFrom_lo_ge rest e.range.hi hcr e2 hmem2
            have hle : e2.range.lo ≤ r := by
              have := of_decide_eq_true hc2
              exact this.1
            linarith
      · have hce : e.range.containsQ r = false := by
          simp only [WeightRange.containsQ, decide_eq_false_iff_not]
          intro hcc
          exact hcont hcc.2
        have hhir : e.range.hi ≤ r := le_of_not_lt hcont
        obtain ⟨e2, hmem2, hcont2, heq2, huniq2⟩ :=
          weighted_find rest e.range.hi r hcr hhir hr1
        refine ⟨e2, List.mem_cons_of_mem e hmem2, hcont2, ?_, ?_⟩
        · simp [weighted_strategy, hce, heq2]
        · intro e3 hmem3 hc3
          rcases List.mem_cons.mp hmem3 with heq3 | hmem3b
          · exfalso
            rw [heq3] at hc3
            rw [hce] at hc3
            exact Bool.false_ne_true hc3
          · exact huniq2 e3 hmem3b hc3

/-- Claim C6: for a draw `r` in `[0, 1)` and an upstream list whose weight
ranges are disjoint, contiguous half-open intervals covering `[0, 1)`
exactly, the weighted strategy returns the unique entry whose range contains
`r`; and when no range contains the draw (the invariant is violated), it
fails with the internal unreachable-range error. -/
theorem c6_weighted_selection (r : ℚ) (l : List UpstreamEntry) :
    (WeightInvariant l → 0 ≤ r → r < 1 →
      ∃ e ∈ l, e.range.containsQ r = true ∧
        weighted_strategy r l = .ok (e.host, e.port) ∧
        ∀ e2 ∈ l, e2.range.containsQ r = true → e2 = e) ∧
    ((∀ e ∈ l, e.range.containsQ r = false) →
      weighted_strategy r l = .error "random number generated was not in any range") := by
  constructor
  · intro hin h0 h1
    exact weighted_find l 0 r hin h0 h1
  · intro hall
    induction l with
    | nil => rfl
    | cons e rest ih =>
        have h0 : e.range.containsQ r = false := hall e (List.mem_cons_self e rest)
        have hrest := ih (fun g hg => hall g (List.mem_cons_of_mem e hg))
        simp [weighted_strategy, h0, hrest]

/-- Witness for C6 at the ranges of spec scenario S6 and the draw 0.65: the
strategy picks upstream `B`. -/
theorem c6_witness :
    weighted_strategy (13/20) lbExample = .ok ("B", 8002) := by
  obtain ⟨e, hmem, hcont, heq, huniq⟩ :=
    (c6_weighted_selection (13/20) lbExample).1
      (by simp [WeightInvariant, ContiguousFrom, lbExample]; norm_num)
      (by norm_num) (by norm_num)
  have hB : (⟨"B", 8002, ⟨1/2, 4/5⟩⟩ : UpstreamEntry) = e := by
    apply huniq
    · simp [lbExample]
    · simp only [WeightRange.containsQ, decide_eq_true_eq]
      norm_num
  rw [heq, ← hB]

/-- Helper: appending strings appends their character data. -/
theorem strAppendData (a b : String) : (a ++ b).data = a.data ++ b.data := rfl

/-- Helper: every member of the glob enumeration exists on disk and lies
under the enumerated root. -/
theorem mem_globAll {fs : Filesystem} {root p : List String} (h : p ∈ globAll fs root) :
    p ∈ fs.paths ∧ root <+: p := by
  have hmf := List.mem_filter.mp h
  refine ⟨hmf.1, ?_⟩
  have hf := hmf.2
  simp only [Bool.and_eq_true] at hf
  exact List.isPrefixOf_iff_prefix.mp hf.1

/-- Helper: resolution over a dot-dot-free path only appends. -/
theorem resolve_foldl (p : List String) (hnd : ".." ∉ p) :
    ∀ acc, List.foldl (fun acc c => if c = ".." then acc.dropLast else acc ++ [c]) acc p = acc ++ p := by
  induction p with
  | nil => intro acc; simp
  | cons c rest ih =>
      intro acc
      have hc : c ≠ ".." := fun h => hnd (h ▸ List.mem_cons_self c rest)
      have hrest : ".." ∉ rest := fun h => hnd (List.mem_cons_of_mem c h)
      simp only [List.foldl_cons, if_neg hc, ih hrest, List.append_assoc, List.singleton_append]

/-- Helper: a path with no dot-dot components resolves to itself. -/
theorem resolve_no_dotdot (p : List String) (hnd : ".." ∉ p) : resolvePath p = p := by
  unfold resolvePath
  rw [resolve_foldl p hnd []]
  simp

/-- Claim C2: the static handler reads (and serves with status 200) only
paths that are members of the set enumerated under `staticRoot` at
construction time; every path it reads lies under `staticRoot` once
resolved; and whenever the resolved candidate path for the URL is not under
`staticRoot`, the response status is 404 and no read at all occurs (in
particular none outside `staticRoot`). -/
theorem c2_static_sandbox (fs : Filesystem) (hwf : WellFormedFS fs) (crit : List String)
    (root : String) (req : HttpRequest) (resp : HttpResponse) (reads : List (List String))
    (hrun : (StaticAssetHandler.init crit root fs).handle_request fs req = some (resp, reads)) :
    (∀ p ∈ reads, p ∈ (StaticAssetHandler.init crit root fs).all_files) ∧
    (resp.status = 200 → ∃ p, reads = [p] ∧
      p ∈ (StaticAssetHandler.init crit root fs).all_files ∧ resp.body = fs.contents p) ∧
    (∀ p ∈ reads, strToPath root <+: resolvePath p) ∧
    (∀ stripped, removeUrlPre (StaticAssetHandler.init crit root fs) req = some stripped →
      ¬ (strToPath root <+: resolvePath (strToPath (root ++ stripped))) →
      resp.status = 404 ∧ reads = []) := by
  cases hm : removeUrlPre (StaticAssetHandler.init crit root fs) req with
  | none => rw [StaticAssetHandler.handle_request, hm] at hrun; exact absurd hrun (by simp)
  | some stripped =>
      rw [StaticAssetHandler.handle_request, hm] at hrun
      simp only [Option.map_some', Option.some_inj, StaticAssetHandler.init] at hrun
      have hresolved : ∀ p ∈ (StaticAssetHandler.init crit root fs).all_files,
          strToPath root <+: resolvePath p := by
        intro p hp
        obtain ⟨hfs, hpre⟩ := mem_globAll (p := p) hp
        rw [resolve_no_dotdot p (hwf p hfs).2.2]
        exact hpre
      by_cases hmem : strToPath (root ++ stripped) ∈ globAll fs (strToPath root)
      · rw [if_pos hmem, Prod.mk.injEq] at hrun
        obtain ⟨hresp, hreads⟩ := hrun
        refine ⟨?_, ?_, ?_, ?_⟩
        · intro p hp
          rw [← hreads] at hp
          rcases List.mem_singleton.mp hp with rfl
          exact hmem
        · intro _
          exact ⟨strToPath (root ++ stripped), hreads.symm, hmem, by rw [← hresp]⟩
        · intro p hp
          rw [← hreads] at hp
          rcases List.mem_singleton.mp hp with rfl
          exact hresolved _ hmem
        · intro stripped2 hm2 hnot
          rw [Option.some_inj] at hm2
          rw [← hm2] at hnot
          exact absurd (hresolved _ hmem) hnot
      · rw [if_neg hmem, Prod.mk.injEq] at hrun
        obtain ⟨hresp, hreads⟩ := hrun
        refine ⟨?_, ?_, ?_, ?_⟩
        · intro p hp; rw [← hreads] at hp; exact absurd hp (List.not_mem_nil p)
        · intro h200; rw [← hresp] at h200; exact absurd h200 (by simp)
        · intro p hp; rw [← hreads] at hp; exact absurd hp (List.not_mem_nil p)
        · intro _ _ _; exact ⟨by rw [← hresp], hreads.symm⟩

/-- Witness for C2: a traversal URL whose candidate resolves outside the
static root is answered with 404 and no filesystem read. -/
theorem c2_witness :
    ({ status := 404,
       body := not_found_error_response "/srv/www/../../etc/passwd" } : HttpResponse).status = 404 ∧
    ([] : List (List String)) = [] :=
  (c2_static_sandbox ⟨[["srv", "www", "logo.png"]], fun _ => "PNG"⟩
      (by unfold WellFormedFS; decide)
      ["/static/"] "/srv/www/"
      { method := "GET", requested_url := "/static/../../etc/passwd", headers := [], payload := "" }
      { status := 404, body := not_found_error_response "/srv/www/../../etc/passwd" } []
      (by set_option maxRecDepth 10000 in decide)).2.2.2
    "../../etc/passwd" (by set_option maxRecDepth 10000 in decide)
    (by set_option maxRecDepth 10000 in decide)

/-- Helper: mapping over an option preserves definedness. -/
theorem optMapIsSome (f : α → β) (o : Option α) : (Option.map f o).isSome = o.isSome := by
  cases o <;> rfl

/-- Helper: the 404 body of the static handler contains the literal
substring claimed by the spec. -/
theorem does_not_exist_infix (abs : String) :
    List.IsInfix ("does not exist").data (not_found_error_response abs).data := by
  refine ⟨("<pre> the file requested was searched for in ").data ++ abs.data ++ (" and it ").data,
    (".\nA proper request for a static resource is any of the strings the request should start with (as defined\nin your settings.json file) + the relative path to your resource starting from the static_root (defined in\nsettings.py). </pre>").data, ?_⟩
  simp only [not_found_error_response, strAppendData, List.append_assoc]
  congr 1

/-- Claim C9: when the request URL starts with one of the criteria prefixes
(equivalently, the prefix strip succeeds) but the candidate path is not in
the prebuilt file set, the static handler answers 404 with a body containing
the literal substring quoted by the spec, and performs no read. -/
theorem c9_static_miss (fs : Filesystem) (crit : List String) (root : String) (req : HttpRequest)
    (stripped : String)
    (hstrip : removeUrlPre (StaticAssetHandler.init crit root fs) req = some stripped)
    (hmiss : strToPath (root ++ stripped) ∉ (StaticAssetHandler.init crit root fs).all_files) :
    ((removeUrlPre (StaticAssetHandler.init crit root fs) req).isSome = true ↔
      ∃ p ∈ crit, pyStartsWith req.requested_url p = true) ∧
    ∃ resp, (StaticAssetHandler.init crit root fs).handle_request fs req = some (resp, []) ∧
      resp.status = 404 ∧ List.IsInfix ("does not exist").data resp.body.data := by
  constructor
  · rw [removeUrlPre, optMapIsSome]
    simp only [List.find?_isSome]
    exact Iff.rfl
  · have hmiss2 : strToPath (root ++ stripped) ∉ globAll fs (strToPath root) := hmiss
    refine ⟨⟨404, [], not_found_error_response (root ++ stripped)⟩, ?_, rfl, ?_⟩
    · rw [StaticAssetHandler.handle_request, hstrip]
      simp only [Option.map_some', Option.some_inj, StaticAssetHandler.init]
      rw [if_neg hmiss2]
    · exact does_not_exist_infix (root ++ stripped)

/-- Witness for C9 at spec scenario S2 (`GET /static/missing.txt`). -/
theorem c9_witness :
    List.IsInfix ("does not exist").data
      (not_found_error_response ("/srv/www/" ++ "missing.txt")).data := by
  obtain ⟨resp, heq, h404, hinf⟩ :=
    (c9_static_miss ⟨[["srv", "www", "logo.png"]], fun _ => "PNG"⟩ ["/static/"] "/srv/www/"
      { method := "GET", requested_url := "/static/missing.txt", headers := [], payload := "" }
      "missing.txt"
      (by set_option maxRecDepth 10000 in decide)
      (by set_option maxRecDepth 10000 in decide)).2
  have hev : (StaticAssetHandler.init ["/static/"] "/srv/www/"
      ⟨[["srv", "www", "logo.png"]], fun _ => "PNG"⟩).handle_request
      ⟨[["srv", "www", "logo.png"]], fun _ => "PNG"⟩
      { method := "GET", requested_url := "/static/missing.txt", headers := [], payload := "" } =
      some (⟨404, [], not_found_error_response ("/srv/www/" ++ "missing.txt")⟩, []) := by
    set_option maxRecDepth 10000 in decide
  rw [hev, Option.some_inj, Prod.mk.injEq] at heq
  rw [← heq.1] at hinf
  exact hinf

/-- Helper: a Python split never returns an empty list of pieces. -/
theorem pySplit2_ne_nil (x y : Char) : ∀ s, pySplit2 x y s ≠ []
  | [] => by simp [pySplit2]
  | [c] => by simp [pySplit2]
  | c :: d :: rest => by
      simp only [pySplit2]
      split
      · simp
      · split <;> simp

/-- Helper: a string with no occurrence of the separator splits into itself. -/
theorem pySplit2_of_not_infix (x y : Char) :
    ∀ (s : List Char), ¬ ([x, y] <:+: s) → pySplit2 x y s = [s]
  | [], _ => rfl
  | [c], _ => rfl
  | c :: d :: rest, hni => by
      have hne : ¬ (c = x ∧ d = y) := by
        rintro ⟨rfl, rfl⟩
        exact hni ((List.prefix_append [c, d] rest).isInfix)
      have hni2 : ¬ ([x, y] <:+: d :: rest) := fun h => hni (List.infix_cons h)
      simp only [pySplit2, if_neg hne, pySplit2_of_not_infix x y (d :: rest) hni2]

/-- Helper: a Python split has at least two pieces exactly when the separator
occurs in the string. -/
theorem pySplit2_two_le_iff (x y : Char) :
    ∀ (s : List Char), 2 ≤ (pySplit2 x y s).length ↔ [x, y] <:+: s
  | [] => by
      simp only [pySplit2, List.length_singleton]
      constructor
      · omega
      · intro h
        have := h.length_le
        simp at this
  | [c] => by
      simp only [pySplit2, List.length_singleton]
      constructor
      · omega
      · intro h
        have := h.length_le
        simp at this
  | c :: d :: rest => by
      by_cases hxy : c = x ∧ d = y
      · obtain ⟨rfl, rfl⟩ := hxy
        have hsp : pySplit2 c d (c :: d :: rest) = [] :: pySplit2 c d rest := by
          simp [pySplit2]
        rw [hsp]
        constructor
        · intro _
          exact (List.prefix_append [c, d] rest).isInfix
        · intro _
          have hlen := List.length_pos.mpr (pySplit2_ne_nil c d rest)
          simp only [List.length_cons]
          omega
      · have hiff := pySplit2_two_le_iff x y (d :: rest)
        have hsp0 : pySplit2 x y (c :: d :: rest) =
            match pySplit2 x y (d :: rest) with
            | [] => [[c]]
            | h :: t => (c :: h) :: t := by
          simp only [pySplit2, if_neg hxy]
        cases hsp : pySplit2 x y (d :: rest) with
        | nil => exact absurd hsp (pySplit2_ne_nil x y (d :: rest))
        | cons a t =>
            rw [hsp] at hsp0 hiff
            rw [hsp0]
            simp only [List.length_cons] at hiff ⊢
            rw [hiff]
            constructor
            · exact fun h => List.infix_cons h
            · intro h
              rcases List.infix_cons_iff.mp h with hpre | htail
              · obtain ⟨rfl, h2⟩ := List.cons_prefix_cons.mp hpre
                obtain ⟨rfl, _⟩ := List.cons_prefix_cons.mp h2
                exact absurd ⟨rfl, rfl⟩ hxy
              · exact htail

/-- Helper: when the separator has two distinct characters and does not occur
in `n`, the split of `n ++ sep ++ rest` peels off `n` and continues after the
separator (the first occurrence found left to right is the boundary one). -/
theorem pySplit2_boundary (x y : Char) (hxy : x ≠ y) :
    ∀ (n rest : List Char), ¬ ([x, y] <:+: n) →
      pySplit2 x y (n ++ x :: y :: rest) = n :: pySplit2 x y rest
  | [], rest, _ => by
      simp [pySplit2]
  | [c], rest, _ => by
      have hcc : ¬ (c = x ∧ x = y) := by rintro ⟨rfl, h⟩; exact hxy h
      simp [pySplit2, hcc]
  | c :: d :: n'', rest, hni => by
      have hni' : ¬ ([x, y] <:+: d :: n'') := fun h => hni (List.infix_cons h)
      have hcd : ¬ (c = x ∧ d = y) := by
        rintro ⟨rfl, rfl⟩
        exact hni ((List.prefix_append [c, d] n'').isInfix)
      have ih := pySplit2_boundary x y hxy (d :: n'') rest hni'
      simp only [List.cons_append] at ih ⊢
      simp only [pySplit2, if_neg hcd, ih]

/-- Helper: looking up the key a pair carries finds that pair first. -/
theorem dictGet_cons_pos {p : String × String} {k : String} (h : p.1 = k)
    (l : List (String × String)) : dictGet (p :: l) k = some p.2 := by
  simp [dictGet, List.find?, h]

/-- Helper: a pair with a different key is skipped by lookup. -/
theorem dictGet_cons_neg {p : String × String} {k : String} (h : ¬ p.1 = k)
    (l : List (String × String)) : dictGet (p :: l) k = dictGet l k := by
  simp [dictGet, List.find?, h]

/-- Helper: overwriting the value at an existing key makes lookup return the
new value. -/
theorem find_over_write (k v : String) :
    ∀ (m : List (String × String)), m.any (fun q => q.1 = k) = true →
      dictGet (m.map (fun q => if q.1 = k then (k, v) else q)) k = some v
  | [], h => by simp at h
  | p :: m, hany => by
      by_cases hp : p.1 = k
      · rw [List.map_cons, if_pos hp, dictGet_cons_pos rfl]
      · have hany' : m.any (fun q => q.1 = k) = true := by
          simp only [List.any_cons, hp, decide_False, Bool.false_or] at hany
          exact hany
        rw [List.map_cons, if_neg hp, dictGet_cons_neg hp]
        exact find_over_write k v m hany'

/-- Helper: the overwrite of one key does not disturb lookups of another. -/
theorem dictGet_map_write (k v k' : String) (hk : k' ≠ k) :
    ∀ (m : List (String × String)),
      dictGet (m.map (fun q => if q.1 = k then (k, v) else q)) k' = dictGet m k'
  | [] => rfl
  | p :: m => by
      by_cases hp : p.1 = k
      · rw [List.map_cons, if_pos hp,
          dictGet_cons_neg (fun h => hk h.symm),
          dictGet_cons_neg (show ¬ p.1 = k' by rw [hp]; exact fun h => hk h.symm)]
        exact dictGet_map_write k v k' hk m
      · rw [List.map_cons, if_neg hp]
        by_cases hp' : p.1 = k'
        · rw [dictGet_cons_pos hp', dictGet_cons_pos hp']
        · rw [dictGet_cons_neg hp', dictGet_cons_neg hp']
          exact dictGet_map_write k v k' hk m

/-- Helper: appending a pair with a fresh key does not disturb lookups of
other keys. -/
theorem dictGet_append_single (k v k' : String) (hk : k' ≠ k) :
    ∀ (m : List (String × String)), dictGet (m ++ [(k, v)]) k' = dictGet m k'
  | [] => by
      rw [List.nil_append, dictGet_cons_neg (fun h => hk h.symm)]
  | p :: m => by
      by_cases hp : p.1 = k'
      · rw [List.cons_append, dictGet_cons_pos hp, dictGet_cons_pos hp]
      · rw [List.cons_append, dictGet_cons_neg hp, dictGet_cons_neg hp]
        exact dictGet_append_single k v k' hk m

/-- Helper: appending a pair whose key is absent makes lookup find it. -/
theorem dictGet_append_self (k v : String) :
    ∀ (m : List (String × String)), m.any (fun q => q.1 = k) = false →
      dictGet (m ++ [(k, v)]) k = some v
  | [], _ => by
      rw [List.nil_append, dictGet_cons_pos rfl]
  | p :: m, hany => by
      simp only [List.any_cons, Bool.or_eq_false_iff, decide_eq_false_iff_not] at hany
      rw [List.cons_append, dictGet_cons_neg hany.1]
      exact dictGet_append_self k v m (by simpa using hany.2)

/-- Helper: after a dict insertion, looking up the inserted key returns the
inserted value. -/
theorem dictGet_insert_self (k v : String) (m : List (String × String)) :
    dictGet (dictInsert m k v) k = some v := by
  by_cases hany : m.any (fun q => decide (q.1 = k)) = true
  · rw [dictInsert, if_pos hany]
    exact find_over_write k v m hany
  · rw [dictInsert, if_neg hany]
    exact dictGet_append_self k v m (Bool.eq_false_iff.mpr hany)

/-- Helper: a dict insertion does not disturb lookups of other keys. -/
theorem dictGet_insert_other (k v k' : String) (hk : k' ≠ k) (m : List (String × String)) :
    dictGet (dictInsert m k v) k' = dictGet m k' := by
  by_cases hany : m.any (fun q => decide (q.1 = k)) = true
  · rw [dictInsert, if_pos hany]
    exact dictGet_map_write k v k' hk m
  · rw [dictInsert, if_neg hany]
    exact dictGet_append_single k v k' hk m

/-- Helper: the dict built from a pair list maps each key to the value of the
last pair carrying it (the Python dict-comprehension collapse). -/
theorem dictOfPairs_last (k : String) (ps : List (String × String)) :
    dictGet (dictOfPairs ps) k =
      ((ps.filter (fun p => p.1 = k)).getLast?).map (fun p => p.2) := by
  induction ps using List.reverseRecOn with
  | nil => rfl
  | append_singleton ps a ih =>
      have hfold : dictOfPairs (ps ++ [a]) = dictInsert (dictOfPairs ps) a.1 a.2 := by
        rw [dictOfPairs, List.foldl_append]
        rfl
      rw [hfold, List.filter_append]
      by_cases ha : a.1 = k
      · subst ha
        rw [dictGet_insert_self a.1 a.2 (dictOfPairs ps)]
        have hfa : List.filter (fun p => decide (p.1 = a.1)) [a] = [a] := by simp
        rw [hfa, List.getLast?_concat]
        rfl
      · rw [dictGet_insert_other a.1 a.2 k (fun h => ha h.symm) (dictOfPairs ps), ih]
        have : List.filter (fun p => decide (p.1 = k)) [a] = [] := by
          simp [List.filter, ha]
        rw [this, List.append_nil]

/-- Helper: rebuilding a string from its character data is the identity. -/
theorem strEta (s : String) : (⟨s.data⟩ : String) = s := rfl

/-- Claim C8, amended: parsing fails exactly when the first line has fewer
than two whitespace-separated tokens or a header line contains no `': '`
(part 1); a header line `name ++ ': ' ++ value` whose name and value contain
no `': '` maps the name to the full value (part 2), but when the value
contains a further `': '` the stored value is truncated at it -- the text
between the first and second occurrence, not the entire remainder (part 3);
the headers of a parsed request are exactly the dict built in order from the
per-line pairs (part 4), in which duplicate names collapse to the last-seen
value (part 5). -/
theorem c8_header_parsing :
    (∀ raw : String, parse_http_request raw = none ↔
        ((pyWsTokens (firstLine raw)).length < 2 ∨
          ∃ h ∈ headerLines raw, ¬ ([':', ' '] <:+: h.data))) ∧
    (∀ n v : String, ¬ ([':', ' '] <:+: n.data) → ¬ ([':', ' '] <:+: v.data) →
      headerPair (n ++ ": " ++ v) = (n, v)) ∧
    (∀ n v w : String, ¬ ([':', ' '] <:+: n.data) → ¬ ([':', ' '] <:+: v.data) →
      headerPair (n ++ ": " ++ v ++ ": " ++ w) = (n, v)) ∧
    (∀ raw req, parse_http_request raw = some req →
      req.headers = dictOfPairs ((headerLines raw).map headerPair)) ∧
    (∀ (ps : List (String × String)) (k : String),
      dictGet (dictOfPairs ps) k =
        ((ps.filter (fun p => p.1 = k)).getLast?).map (fun p => p.2)) := by
  have hsplit_iff : ∀ h : String,
      (2 ≤ (pySplitS ':' ' ' h).length) ↔ ([':', ' '] <:+: h.data) := by
    intro h
    rw [pySplitS, List.length_map]
    exact pySplit2_two_le_iff ':' ' ' h.data
  refine ⟨?_, ?_, ?_, ?_, fun ps k => dictOfPairs_last k ps⟩
  · intro raw
    cases htok : pyWsTokens (firstLine raw) with
    | nil =>
        simp only [parse_http_request, htok]
        simp
    | cons m rest =>
        cases rest with
        | nil =>
            simp only [parse_http_request, htok]
            simp
        | cons u rest2 =>
            simp only [parse_http_request, htok]
            by_cases hall : ((headerLines raw).all
                (fun h => decide (2 ≤ (pySplitS ':' ' ' h).length))) = true
            · rw [if_pos hall]
              apply iff_of_false
              · simp
              · rintro (hlen | ⟨h, hmem, hni⟩)
                · simp only [List.length_cons] at hlen
                  omega
                · have hle := List.all_eq_true.mp hall h hmem
                  rw [decide_eq_true_eq] at hle
                  exact hni ((hsplit_iff h).mp hle)
            · rw [if_neg hall]
              apply iff_of_true rfl
              have hex : ∃ h ∈ headerLines raw, ¬ (2 ≤ (pySplitS ':' ' ' h).length) := by
                by_contra hc
                push_neg at hc
                exact hall (List.all_eq_true.mpr (fun h hm => decide_eq_true (hc h hm)))
              obtain ⟨h, hm, hp⟩ := hex
              exact Or.inr ⟨h, hm, fun hinf => hp ((hsplit_iff h).mpr hinf)⟩
  · intro n v hn hv
    have hd : (n ++ ": " ++ v).data = n.data ++ ':' :: ' ' :: v.data := by
      simp only [strAppendData, List.append_assoc]
      rfl
    simp only [headerPair, pySplitS, hd,
      pySplit2_boundary ':' ' ' (by decide) n.data v.data hn,
      pySplit2_of_not_infix ':' ' ' v.data hv]
    simp [strEta]
  · intro n v w hn hv
    have hd : (n ++ ": " ++ v ++ ": " ++ w).data =
        n.data ++ ':' :: ' ' :: (v.data ++ ':' :: ' ' :: w.data) := by
      simp only [strAppendData, List.append_assoc]
      rfl
    simp only [headerPair, pySplitS, hd,
      pySplit2_boundary ':' ' ' (by decide) n.data (v.data ++ ':' :: ' ' :: w.data) hn,
      pySplit2_boundary ':' ' ' (by decide) v.data w.data hv]
    simp [strEta]
  · intro raw req hp
    cases htok : pyWsTokens (firstLine raw) with
    | nil =>
        simp only [parse_http_request, htok] at hp
        exact absurd hp (by simp)
    | cons m rest =>
        cases rest with
        | nil =>
            simp only [parse_http_request, htok] at hp
            exact absurd hp (by simp)
        | cons u rest2 =>
            simp only [parse_http_request, htok] at hp
            by_cases hall : ((headerLines raw).all
                (fun h => decide (2 ≤ (pySplitS ':' ' ' h).length))) = true
            · rw [if_pos hall, Option.some_inj] at hp
              rw [← hp]
            · rw [if_neg hall] at hp
              exact absurd hp (by simp)

/-- Witness for the amended C8: a clean header line maps name to full value,
and a duplicated name keeps the last-seen value. -/
theorem c8_amended_witness :
    headerPair ("Host" ++ ": " ++ "example.com") = ("Host", "example.com") ∧
    dictGet (dictOfPairs [("A", "1"), ("A", "2")]) "A" = some "2" := by
  constructor
  · exact c8_header_parsing.2.1 "Host" "example.com" (by decide) (by decide)
  · rw [c8_header_parsing.2.2.2.2 [("A", "1"), ("A", "2")] "A"]
    decide

/-- Claim C8, counterexample: for the header line `X-Custom: a: b` the code
stores the value `a` (the split on all occurrences of `': '` keeps only the
piece between the first and the second), not the entire remainder `a: b` as
the claim states. -/
theorem c8_counterexample :
    parse_http_request "GET /x HTTP/1.1\r\nX-Custom: a: b\r\n\r\n" =
      some { method := "GET", requested_url := "/x",
             headers := [("X-Custom", "a")], payload := "" } ∧
    ("a" : String) ≠ "a: b" := by
  set_option maxRecDepth 10000 in decide
